import Mathlib

/-!
Verification of the saa-scanDownloader script (`downloadScans.py`).

The development shallowly embeds the script's pure logic:

* Python strings are Lean `String`s (and `List Char` where character-level
  reasoning is needed); `str.replace` is modelled by `pyReplace`, and the string
  comparison used by `sorted` is modelled by `pyStrLt` (code-point
  lexicographic, exactly Python's `<` on `str`).
* The EAD XML tree (`xml.etree.ElementTree`) is modelled by `Element`;
  `find`/`findall` path lookups are modelled by document-order search
  functions over the children lists.
* The dataclass `C` is modelled by the inductive `C` (`id`, `title`, `path`,
  `hasPart`); Python's `None` makes `id`/`title` an `Option String`.
* HTTP collaborators (`requests.get`) are modelled as explicit function
  parameters (`fetchPage`, `imgResp`); the filesystem is an association list
  from file path to file contents, newest entry first (`Fs`), matching the
  `os.path.exists` check-then-write discipline of the script.
* Raising an exception is modelled by `Except.error`; functions that cannot
  raise are total.

Child lists of recursive trees use the mutually inductive `CList`/`EList`
(isomorphic to `List C`/`List Element`); this keeps every recursive function
structurally recursive, hence computable by `rfl`/`decide`.
-/

/-! ### Python string primitives -/

/-- `beginsWith pat s` is true iff `pat` is an initial segment of `s`. -/
def beginsWith : List Char → List Char → Bool
  | [], _ => true
  | _ :: _, [] => false
  | a :: ps, b :: s => a = b && beginsWith ps s

/-- `occursIn pat s` is true iff `pat` occurs as a contiguous substring of `s`. -/
def occursIn (pat : List Char) : List Char → Bool
  | [] => beginsWith pat []
  | c :: rest => beginsWith pat (c :: rest) || occursIn pat rest

/-- Replace every (leftmost, non-overlapping) occurrence of `pat` by `repl`,
scanning left to right: the semantics of Python's `str.replace` for a
non-empty pattern.  The `skip` counter carries how many characters of a
matched pattern remain to be consumed, keeping the recursion structural. -/
def replaceAllGo (pat repl : List Char) : List Char → Nat → List Char
  | [], _ => []
  | c :: rest, 0 =>
      if !pat.isEmpty && beginsWith pat (c :: rest) then
        repl ++ replaceAllGo pat repl rest (pat.length - 1)
      else
        c :: replaceAllGo pat repl rest 0
  | _ :: rest, skip + 1 => replaceAllGo pat repl rest skip

/-- Python `s.replace(pat, repl)` for a non-empty `pat`. -/
def pyReplace (s pat repl : String) : String :=
  ⟨replaceAllGo pat.data repl.data s.data 0⟩

/-- Python's `<` on strings: lexicographic comparison of code points. -/
def pyStrLt : List Char → List Char → Bool
  | [], [] => false
  | [], _ :: _ => true
  | _ :: _, [] => false
  | a :: s, b :: t => if a = b then pyStrLt s t else decide (a < b)

/-! ### The XML element model (`xml.etree.ElementTree`)

An element has a tag, an optional text (ElementTree's `.text` is `None` for an
element with no textual content), and an ordered children list.  `EList` is the
children list type (isomorphic to `List Element`). -/

mutual
inductive Element : Type where
  | mk : String → Option String → EList → Element
inductive EList : Type where
  | nil : EList
  | cons : Element → EList → EList
end

def Element.tag : Element → String
  | .mk t _ _ => t

def Element.text : Element → Option String
  | .mk _ x _ => x

def Element.children : Element → EList
  | .mk _ _ ch => ch

/-- First child of the list carrying the given tag (document order). -/
def firstTag : EList → String → Option Element
  | .nil, _ => none
  | .cons (Element.mk tg tx ch) rest, t =>
      if tg = t then some (Element.mk tg tx ch) else firstTag rest t

/-- `el.find("t1/t2")` of ElementTree: the first grandchild reached by a `t1`
child followed by a `t2` child, in document order. -/
def findTwo : EList → String → String → Option Element
  | .nil, _, _ => none
  | .cons (Element.mk tg _ ch) rest, t1, t2 =>
      if tg = t1 then
        match firstTag ch t2 with
        | some e => some e
        | none => findTwo rest t1 t2
      else findTwo rest t1 t2

/-- `tree.find(".//t")` of ElementTree: the first descendant (any depth, not
the element itself) carrying the tag, in document order. -/
def findDescL : EList → String → Option Element
  | .nil, _ => none
  | .cons (Element.mk tg tx ch) rest, t =>
      if tg = t then some (Element.mk tg tx ch)
      else
        match findDescL ch t with
        | some e => some e
        | none => findDescL rest t

/-- All children of the list carrying the given tag, in document order
(`el.findall("t")`). -/
def allTag : EList → String → EList
  | .nil, _ => .nil
  | .cons (Element.mk tg tx ch) rest, t =>
      if tg = t then .cons (Element.mk tg tx ch) (allTag rest t) else allTag rest t

def EList.append : EList → EList → EList
  | .nil, l => l
  | .cons e rest, l => .cons e (rest.append l)

/-- Concatenation step for `findall` over a two-level path. -/
def allTagUnder : EList → String → EList
  | .nil, _ => .nil
  | .cons (Element.mk _ _ ch) rest, t => (allTag ch t).append (allTagUnder rest t)

/-- `tree.findall("archdesc/dsc/c")`: the `c` children of the `dsc` children of
the `archdesc` children of the root, in document order. -/
def findallArchdescDscC (tree : Element) : EList :=
  allTagUnder (allTagUnder (allTag tree.children "archdesc") "dsc") "c"

/-! ### The finding-aid tree model (dataclass `C`)

`id`, `title`: `Option String` because ElementTree's `.text` can be `None`.
`hasPart` is the ordered children list (`CList`, isomorphic to `List C`). -/

mutual
inductive C : Type where
  | mk : Option String → Option String → String → CList → C
inductive CList : Type where
  | nil : CList
  | cons : C → CList → CList
end

def C.id : C → Option String
  | .mk i _ _ _ => i

def C.title : C → Option String
  | .mk _ t _ _ => t

def C.path : C → String
  | .mk _ _ p _ => p

def C.hasPart : C → CList
  | .mk _ _ _ h => h

def CList.isEmpty : CList → Bool
  | .nil => true
  | .cons _ _ => false

def CList.length : CList → Nat
  | .nil => 0
  | .cons _ rest => rest.length + 1

def CList.toList : CList → List C
  | .nil => []
  | .cons c rest => c :: rest.toList

/-! ### The EAD parser (`parse_ead_element`, `parse_ead`)

`parseCs els mkLvl i` models the list comprehension
`[parse_ead_element(child, LEVEL(i+1)) for i, child in enumerate(el.findall("c"))]`:
it walks a children list, skips non-`c` elements (that is the `findall("c")`
filter), and parses each `c` element with the level string `mkLvl (i+1)`,
where `i` counts previously matched `c` elements.  `mkLvl` is
`fun n => level ++ "." ++ repr n` inside `parse_ead_element` (the f-string
`f"{level}.{i+1}"`) and `fun n => repr n` at the top level (`str(i + 1)` in
`parse_ead`).  A missing `did/unitid` or `did/unittitle` sub-element makes the
Python attribute access `el.find(...).text` raise `AttributeError`, modelled
by `Except.error "AttributeError"`; a present sub-element contributes its
(possibly `None`) text verbatim. -/

def parseCs : EList → (Nat → String) → Nat → Except String CList
  | .nil, _, _ => .ok .nil
  | .cons (Element.mk tg _ ch) rest, mkLvl, i =>
      if tg = "c" then
        match findTwo ch "did" "unitid", findTwo ch "did" "unittitle" with
        | some u, some tt => do
            let lvl := mkLvl (i + 1)
            let parts ← parseCs ch (fun n => lvl ++ "." ++ Nat.repr n) 0
            let tail ← parseCs rest mkLvl (i + 1)
            return CList.cons (C.mk u.text tt.text lvl parts) tail
        | _, _ => .error "AttributeError"
      else parseCs rest mkLvl i

/-- `parse_ead_element(el, level)`: reads `did/unitid` and `did/unittitle` of
`el` (an `AttributeError` if either is absent), and parses the `c` children
with levels `f"{level}.{i+1}"`. -/
def parse_ead_element (el : Element) (level : String) : Except String C :=
  match el with
  | Element.mk _ _ ch =>
      match findTwo ch "did" "unitid", findTwo ch "did" "unittitle" with
      | some u, some tt => do
          let parts ← parseCs ch (fun n => level ++ "." ++ Nat.repr n) 0
          return C.mk u.text tt.text level parts
      | _, _ => .error "AttributeError"

/-- `parse_ead(tree)`: root fields from `.//eadid` and `.//titleproper`, root
path `"0"`, children parsed from `archdesc/dsc/c` with levels `str(i+1)`. -/
def parse_ead (tree : Element) : Except String C :=
  match findDescL tree.children "eadid", findDescL tree.children "titleproper" with
  | some u, some tt => do
      let parts ← parseCs (findallArchdescDscC tree) (fun n => Nat.repr n) 0
      return C.mk u.text tt.text "0" parts
  | _, _ => .error "AttributeError"

/-! ### The tree flattener (`flatten_ead_tree`) and document order -/

/-- The body of `flatten_ead_tree` over a children list: for each part, append
the part, then — if `part.hasPart` is truthy (non-empty) — its recursively
flattened subtree, then continue with the following siblings. -/
def flattenParts : CList → List C
  | .nil => []
  | .cons (C.mk i t p parts) rest =>
      C.mk i t p parts ::
        ((if parts.isEmpty then [] else flattenParts parts) ++ flattenParts rest)

/-- `flatten_ead_tree(c)`: flatten all subtrees below `c` into a single list. -/
def flatten_ead_tree (c : C) : List C :=
  flattenParts c.hasPart

/-- Depth-first document order of all nodes hanging below a children list:
each node, immediately followed by all of its descendants, then its later
siblings.  This is the specification-side description of document order,
written independently of `flatten_ead_tree`. -/
def docOrderParts : CList → List C
  | .nil => []
  | .cons (C.mk i t p parts) rest =>
      C.mk i t p parts :: (docOrderParts parts ++ docOrderParts rest)

/-- Depth-first document order of a whole tree: the root, then every other
node in document order. -/
def docOrder (c : C) : List C :=
  c :: docOrderParts c.hasPart

/-! ### Path assignment facts needed for the `sorted(..., key=lambda x: x.path)` claim -/

/-- `pathsFrom pre k l` holds when the `j`-th node of `l` carries path string
`pre ++ repr (k + j)` and, recursively, each node's children carry the node's
own path extended by `"." ++ repr (sibling index)`.  This is exactly the path
discipline `parse_ead`/`parse_ead_element` install (`pre = []`, `k = 1` at the
top level). -/
def pathsFrom : List Char → Nat → CList → Bool
  | _, _, .nil => true
  | pre, k, .cons (C.mk _ _ p parts) rest =>
      (p.data == pre ++ (Nat.repr k).data) && pathsFrom (p.data ++ ['.']) 1 parts &&
        pathsFrom pre (k + 1) rest

/-- Every node of the children list (recursively) has at most nine children. -/
def smallParts : CList → Bool
  | .nil => true
  | .cons (C.mk _ _ _ parts) rest =>
      decide (parts.length ≤ 9) && smallParts parts && smallParts rest

/-- Every node of the tree, the root included, has at most nine children. -/
def smallAll (c : C) : Bool :=
  decide (c.hasPart.length ≤ 9) && smallParts c.hasPart

/-- Strict "document order by path string" comparison: Python `x.path < y.path`. -/
def pLt (a b : C) : Prop :=
  pyStrLt a.path.data b.path.data = true

/-- The (total, reflexive) comparison `sorted(..., key=lambda x: x.path)` sorts
by: `a` may stay before `b` iff `b.path < a.path` fails. -/
def pathLe (a b : C) : Prop :=
  pyStrLt b.path.data a.path.data = false

instance : DecidableRel pathLe := fun a b =>
  inferInstanceAs (Decidable (pyStrLt b.path.data a.path.data = false))

/-! ### The metadata client (`getScanCount`, `getScans`) -/

/-- One scan record from the metadata service: `{"id": ..., "name": ...}`. -/
structure ScanRecord where
  id : String
  name : String
deriving DecidableEq

/-- The callback-envelope stripping performed on every metadata response body
(lines `data = r.text.replace("callback_json8(", "").replace(")", "")`):
Python's `replace` removes every occurrence of each pattern, not merely a
leading prefix and a trailing suffix. -/
def stripEnvelope (s : String) : String :=
  pyReplace (pyReplace s "callback_json8(" "") ")" ""

/-- `getScanCount`, with the HTTP response text and the JSON decoding
(`json.loads` plus the `["scans"]["scancount"]` accesses) abstracted as
parameters: the function strips the envelope and hands the result to the
decoder; there is no exception handling, so a decoder error is the result. -/
def getScanCount (respText : String) (loads : String → Except String Nat) :
    Except String Nat :=
  loads (stripEnvelope respText)

/-- The request loop of `getScans`
(`for i in range(math.ceil(nscans / 100)): ...`), with one page fetch
(HTTP GET + envelope strip + JSON decode, lines 217-225) abstracted as
`fetchPage start`.  Returns the accumulated scans and the list of `start`
offsets requested, in order.  `k` is the remaining iteration count; `start`
advances by `limit` after every request (`arguments["start"] += limit`). -/
def getScansLoop (fetchPage : Nat → List ScanRecord) :
    Nat → Nat → Nat → List ScanRecord × List Nat
  | 0, _, _ => ([], [])
  | k + 1, start, limit =>
      let page := fetchPage start
      let (scans, starts) := getScansLoop fetchPage k (start + limit) limit
      (page ++ scans, start :: starts)

/-- `getScans(path, nscans, collectionNumber, start=0, limit=100)`: note the
iteration count is `math.ceil(nscans / 100)` with a hard-coded `100`, not
`limit`. -/
def getScans (fetchPage : Nat → List ScanRecord) (nscans start limit : Nat) :
    List ScanRecord × List Nat :=
  getScansLoop fetchPage ((nscans + 99) / 100) start limit

/-! ### The scan downloader (`downloadScan`) and the orchestrator (`downloadFile`) -/

/-- The filesystem: an association list from file path to file contents,
newest write first (so `List.lookup` sees the latest contents and
`os.path.exists fp` is `(alookup fp fs).isSome`). -/
abbrev Fs : Type := List (String × String)

/-- Association-list lookup (first match wins): the dictionary access and the
`os.path.exists` test of the model. -/
def alookup (k : String) : List (String × String) → Option String
  | [] => none
  | p :: rest => if k = p.1 then some p.2 else alookup k rest

def fsWrite (fs : Fs) (fp content : String) : Fs :=
  (fp, content) :: fs

def DOWNLOADURL : String := "https://download-images.memorix.nl/ams/download/fullsize/"

/-- `downloadScan(uuidScan, scanName, folder)`, with the image service
abstracted as `imgResp : url → (status, body)`.  Returns the new filesystem
and the list of image URLs requested.  (`os.path.join` is modelled as
`folder ++ "/" ++ ...`; the chunked streamed write deposits the whole body.)
The function raises nothing: a non-200 status falls through and the function
returns normally. -/
def downloadScan (imgResp : String → Nat × String) (uuidScan scanName folder : String)
    (fs : Fs) : Fs × List String :=
  let fp := folder ++ "/" ++ scanName ++ ".jpg"
  if (alookup fp fs).isSome then
    (fs, [])
  else
    let url := DOWNLOADURL ++ uuidScan ++ ".jpg"
    let r := imgResp url
    if r.1 = 200 then (fsWrite fs fp r.2, [url]) else (fs, [url])

/-- Python `dict` assignment `d[k] = v`: overwrite in place if the key is
present, else append; insertion order of keys is preserved. -/
def dictInsert (d : List (String × String)) (k v : String) : List (String × String) :=
  if (alookup k d).isSome then
    d.map (fun p => if p.1 = k then (k, v) else p)
  else
    d ++ [(k, v)]

/-- `json.dump(concordance, jsonfile, indent=4)` for a string-to-string dict:
pretty-printed JSON object, keys in insertion order.  (JSON string escaping
is not modelled; the keys and values used in this development need none.) -/
def dumpConcordance (d : List (String × String)) : String :=
  match d with
  | [] => "\x7b\x7d"
  | _ =>
      "\x7b\n" ++
        String.intercalate ",\n"
          (d.map (fun p => "    \"" ++ p.1 ++ "\": \"" ++ p.2 ++ "\"")) ++
        "\n\x7d"

/-- The per-scan loop of `downloadFile` (lines 302-312): print the progress
line, call `downloadScan`, and — when the concordance option is on — record
`concordance[name] = uuid` unconditionally.  Returns the filesystem, the
printed lines, the image URLs requested, and the concordance dict.  `n` is
the 1-based `enumerate` counter. -/
def downloadLoop (imgResp : String → Nat × String) (concordancefile : Bool)
    (nscans : Nat) (folder : String) :
    List ScanRecord → Nat → Fs → List (String × String) →
    Fs × List String × List String × List (String × String)
  | [], _, fs, conc => (fs, [], [], conc)
  | s :: rest, n, fs, conc =>
      let pr := "\t" ++ Nat.repr n ++ "/" ++ Nat.repr nscans ++ "\t" ++ s.name ++ ".jpg"
      let step := downloadScan imgResp s.id s.name folder fs
      let conc1 := if concordancefile then dictInsert conc s.name s.id else conc
      let tail := downloadLoop imgResp concordancefile nscans folder rest (n + 1) step.1 conc1
      (tail.1, pr :: tail.2.1, step.2 ++ tail.2.2.1, tail.2.2.2)

/-- The environment of one `downloadFile` call: the value the scan-count probe
returns (`getScanCount`, line 289), the page fetcher used by `getScans`, and
the image service. -/
structure DLEnv where
  scancount : Nat
  fetchPage : Nat → List ScanRecord
  imgResp : String → Nat × String

/-- `downloadFile(path, collectionNumber, inventoryNumber, folder,
concordancefile)`: probe the scan count, retrieve the scan metadata, and if
the list is empty print `"No scans found for ..."` and return; otherwise
download every scan and, when enabled, write the pretty-printed
`concordance.json`.  Returns the filesystem, the printed lines, and the image
URLs requested.  (`os.makedirs` and `os.path.abspath` are not modelled;
directories are implicit in the path strings.) -/
def downloadFile (env : DLEnv) (path collectionNumber inventoryNumber folder : String)
    (concordancefile : Bool) (fs : Fs) : Fs × List String × List String :=
  let folder2 := folder ++ "/" ++ collectionNumber ++ "/" ++ inventoryNumber
  let nscans := env.scancount
  let scans := (getScans env.fetchPage nscans 0 100).1
  if scans.isEmpty then
    (fs, ["No scans found for " ++ inventoryNumber], [])
  else
    let r := downloadLoop env.imgResp concordancefile nscans folder2 scans 1 fs []
    let fs2 := if concordancefile then
        fsWrite r.1 (folder2 ++ "/concordance.json") (dumpConcordance r.2.2.2)
      else r.1
    (fs2, ("Downloading scans to " ++ folder2 ++ ":") :: r.2.1, r.2.2.1)

/-! ### Concrete fixtures -/

def EList.ofList : List Element → EList
  | [] => .nil
  | e :: rest => .cons e (EList.ofList rest)

/-- A file-level `c` element with `did/unitid` and `did/unittitle` texts. -/
def leafEl (idn : String) : Element :=
  .mk "c" none (.cons
    (.mk "did" none (.cons (.mk "unitid" (some idn) .nil)
      (.cons (.mk "unittitle" (some ("T" ++ idn)) .nil) .nil))) .nil)

/-- An EAD root with `eadid`, `titleproper` and `archdesc/dsc` wrapping the
given `c` elements. -/
def eadRootEl (cs : List Element) : Element :=
  .mk "ead" none (EList.ofList
    [.mk "eadid" (some "COL1") .nil,
     .mk "titleproper" (some "Collection") .nil,
     .mk "archdesc" none (.cons (.mk "dsc" none (EList.ofList cs)) .nil)])

/-- A finding aid whose root has ten file-level children. -/
def elBig : Element :=
  eadRootEl ((List.range 10).map (fun n => leafEl (Nat.repr (n + 1))))

def cBig : C :=
  match parse_ead elBig with
  | .ok c => c
  | .error _ => C.mk none none "" .nil

/-- A series `c` element with one nested file-level child. -/
def branchEl : Element :=
  .mk "c" none (.cons
    (.mk "did" none (.cons (.mk "unitid" (some "A") .nil)
      (.cons (.mk "unittitle" (some "TA") .nil) .nil)))
    (.cons (leafEl "A1") .nil))

/-- A finding aid with two root children (a series with one file, and a file). -/
def elSmall : Element := eadRootEl [branchEl, leafEl "B"]

def cSmall : C :=
  match parse_ead elSmall with
  | .ok c => c
  | .error _ => C.mk none none "" .nil

/-- A `c` element whose `did` has no `unitid` sub-element. -/
def elMissingUnitid : Element :=
  .mk "c" none (.cons
    (.mk "did" none (.cons (.mk "unittitle" (some "t") .nil) .nil)) .nil)

/-- A `c` element whose `did/unitid` and `did/unittitle` are present but empty
(`.text` is `None`). -/
def elEmptyUnitid : Element :=
  .mk "c" none (.cons
    (.mk "did" none (.cons (.mk "unitid" none .nil)
      (.cons (.mk "unittitle" none .nil) .nil))) .nil)

/-- Declared scan count 0. -/
def envZero : DLEnv := ⟨0, fun _ => [], fun _ => (200, "img")⟩

/-- Declared scan count 5, but the service returns no scan records. -/
def envFive : DLEnv := ⟨5, fun _ => [], fun _ => (200, "img")⟩

/-- Two scans, `A` with id `1` and `B` with id `2`; downloads succeed. -/
def envAB : DLEnv :=
  ⟨2, fun st => if st = 0 then [⟨"1", "A"⟩, ⟨"2", "B"⟩] else [], fun _ => (200, "imgbody")⟩

/-- One scan `A` (id `1`); the image service answers 404. -/
def env404 : DLEnv :=
  ⟨1, fun st => if st = 0 then [⟨"1", "A"⟩] else [], fun _ => (404, "")⟩

/-! ### Theorems -/

/-! ### Lemmas about the string primitives -/

theorem beginsWith_refl_append : ∀ (p s : List Char), beginsWith p (p ++ s) = true
  | [], _ => rfl
  | a :: ps, s => by simp [beginsWith, beginsWith_refl_append ps s]

theorem replaceAllGo_skip_chunk (pat repl : List Char) :
    ∀ (xs s : List Char), replaceAllGo pat repl (xs ++ s) xs.length = replaceAllGo pat repl s 0 := by
  intro xs
  induction xs with
  | nil => intro s; rfl
  | cons x xs ih => intro s; simpa [replaceAllGo] using ih s

/-- Inside an occurrence-free suffix the scanner copies characters verbatim. -/
theorem replaceAllGo_of_not_occurs (pat repl : List Char) :
    ∀ (s : List Char), occursIn pat s = false → replaceAllGo pat repl s 0 = s := by
  intro s
  induction s with
  | nil => intro _; rfl
  | cons c rest ih =>
      intro h
      simp only [occursIn, Bool.or_eq_false_iff] at h
      simp [replaceAllGo, h.1, ih h.2]

/-- A match at the head of the scan is consumed and replaced. -/
theorem replaceAllGo_match (pat repl s : List Char) (hne : pat ≠ []) :
    replaceAllGo pat repl (pat ++ s) 0 = repl ++ replaceAllGo pat repl s 0 := by
  cases pat with
  | nil => exact absurd rfl hne
  | cons a ps =>
      have h1 : beginsWith (a :: ps) (a :: (ps ++ s)) = true := by
        simpa using beginsWith_refl_append (a :: ps) s
      show replaceAllGo (a :: ps) repl (a :: (ps ++ s)) 0 = _
      simp only [replaceAllGo, h1, List.isEmpty_cons, Bool.not_false, Bool.true_and, if_true,
        List.length_cons, Nat.add_sub_cancel, List.append_eq]
      rw [replaceAllGo_skip_chunk (a :: ps) repl ps s]

theorem pyStrLt_append_left : ∀ (p s t : List Char),
    pyStrLt (p ++ s) (p ++ t) = pyStrLt s t
  | [], _, _ => rfl
  | a :: p, s, t => by simp [pyStrLt, pyStrLt_append_left p s t]

theorem pyStrLt_self_append : ∀ (s t : List Char), t ≠ [] → pyStrLt s (s ++ t) = true
  | [], [], h => absurd rfl h
  | [], _ :: _, _ => rfl
  | a :: s, t, h => by simp [pyStrLt, pyStrLt_self_append s t h]

theorem pyStrLt_cons_of_lt (a b : Char) (s t : List Char) (h : a < b) :
    pyStrLt (a :: s) (b :: t) = true := by
  have hne : a ≠ b := ne_of_lt h
  simp [pyStrLt, hne, h]

theorem pyStrLt_append_cons_of_lt (p : List Char) (a b : Char) (s t : List Char)
    (h : a < b) : pyStrLt (p ++ a :: s) (p ++ b :: t) = true := by
  rw [pyStrLt_append_left]; exact pyStrLt_cons_of_lt a b s t h

theorem pyStrLt_asymm : ∀ (s t : List Char), pyStrLt s t = true → pyStrLt t s = false
  | [], [], h => by simp [pyStrLt] at h
  | [], _ :: _, _ => rfl
  | _ :: _, [], h => by simp [pyStrLt] at h
  | a :: s, b :: t, h => by
      by_cases hab : a = b
      · subst hab
        simp only [pyStrLt, if_true, if_pos rfl] at h ⊢
        exact pyStrLt_asymm s t h
      · have hba : b ≠ a := fun he => hab he.symm
        simp only [pyStrLt, if_neg hab, decide_eq_true_eq] at h
        simp only [pyStrLt, if_neg hba, decide_eq_false_iff_not]
        exact not_lt_of_lt h

/-- Sanity link to the source shape: on a `c` element, one step of `parseCs`
is exactly `parse_ead_element` at level `mkLvl (i+1)` followed by the rest of
the walk. -/
theorem parseCs_cons_c (tg : String) (tx : Option String) (ch rest : EList)
    (mkLvl : Nat → String) (i : Nat) (htg : tg = "c") :
    parseCs (.cons (Element.mk tg tx ch) rest) mkLvl i = do
      let c ← parse_ead_element (Element.mk tg tx ch) (mkLvl (i + 1))
      let tail ← parseCs rest mkLvl (i + 1)
      return CList.cons c tail := by
  subst htg
  simp only [parseCs, parse_ead_element, if_pos rfl]
  cases findTwo ch "did" "unitid" with
  | none => rfl
  | some u =>
      cases findTwo ch "did" "unittitle" with
      | none => rfl
      | some tt =>
          simp only [Except.bind]
          cases parseCs ch (fun n => mkLvl (i + 1) ++ "." ++ Nat.repr n) 0 with
          | error e => rfl
          | ok parts => cases parseCs rest mkLvl (i + 1) <;> rfl

theorem flattenParts_cons (i t : Option String) (p : String) (parts rest : CList) :
    flattenParts (.cons (C.mk i t p parts) rest) =
      C.mk i t p parts :: (flattenParts parts ++ flattenParts rest) := by
  cases parts with
  | nil => simp [flattenParts, CList.isEmpty]
  | cons a as => simp [flattenParts, CList.isEmpty]

/-- The flattener emits exactly the non-root nodes in document order. -/
theorem flattenParts_eq_docOrderParts (l : CList) : flattenParts l = docOrderParts l := by
  induction l using docOrderParts.induct with
  | case1 => rfl
  | case2 i t p parts rest ih1 ih2 => rw [flattenParts_cons, docOrderParts, ih1, ih2]

theorem pLt_pathLe {a b : C} (h : pLt a b) : pathLe a b :=
  pyStrLt_asymm _ _ h

theorem repr_digit : ∀ k < 10, (Nat.repr k).data = [Char.ofNat (48 + k)] := by decide

theorem digit_lt : ∀ a < 10, ∀ b < 10, a < b → Char.ofNat (48 + a) < Char.ofNat (48 + b) := by
  decide

/-- Under the parser's path discipline, with every sibling index a single
digit, the flattened children list is strictly increasing in `pLt`, and every
emitted node's path extends `pre ++ repr (k + j)` for its block index `j`
(either exactly, or by a `"."`-separated tail). -/
theorem pairwise_pathsFrom (pre : List Char) (k : Nat) (l : CList) :
    1 ≤ k → k + l.length ≤ 10 → pathsFrom pre k l = true → smallParts l = true →
    List.Pairwise pLt (flattenParts l) ∧
      ∀ d ∈ flattenParts l, ∃ j, j < l.length ∧ ∃ r,
        d.path.data = pre ++ (Nat.repr (k + j)).data ++ r ∧
        (r = [] ∨ ∃ r2, r = '.' :: r2) := by
  induction pre, k, l using pathsFrom.induct with
  | case1 pre k =>
      intro _ _ _ _
      exact ⟨List.Pairwise.nil, by intro d hd; simp [flattenParts] at hd⟩
  | case2 pre k i t p parts rest ih1 ih2 =>
      intro hk1 hk hp hs
      simp only [pathsFrom, Bool.and_eq_true, beq_iff_eq] at hp
      obtain ⟨⟨hpath, hsub⟩, hrest⟩ := hp
      simp only [smallParts, Bool.and_eq_true, decide_eq_true_eq] at hs
      obtain ⟨⟨hlen, hsmallsub⟩, hsmallrest⟩ := hs
      simp only [CList.length] at hk
      have hk9 : k ≤ 9 := by omega
      have A := ih1 (le_refl 1) (by omega) hsub hsmallsub
      have B := ih2 (by omega) (by omega) hrest hsmallrest
      have dig : (Nat.repr k).data = [Char.ofNat (48 + k)] := repr_digit k (by omega)
      -- characterisation of the paths in the two sub-blocks, in `pre`-rooted form
      have hA : ∀ d ∈ flattenParts parts, ∃ r2,
          d.path.data = pre ++ Char.ofNat (48 + k) :: '.' :: r2 := by
        intro d hd
        obtain ⟨j, _, r, hdp, _⟩ := A.2 d hd
        refine ⟨(Nat.repr (1 + j)).data ++ r, ?_⟩
        rw [hdp, hpath, dig]
        simp
      have hB : ∀ d ∈ flattenParts rest, ∃ j r, j < rest.length ∧
          d.path.data = pre ++ Char.ofNat (48 + (k + 1 + j)) :: r := by
        intro d hd
        obtain ⟨j, hj, r, hdp, _⟩ := B.2 d hd
        have dig2 : (Nat.repr (k + 1 + j)).data = [Char.ofNat (48 + (k + 1 + j))] :=
          repr_digit (k + 1 + j) (by omega)
        refine ⟨j, (Nat.repr (k + 1 + j)).data.tail ++ r, hj, ?_⟩
        rw [hdp, dig2]
        simp [dig2]
      constructor
      · -- pairwise sortedness of the flattened cons cell
        rw [flattenParts_cons]
        rw [List.pairwise_cons]
        refine ⟨?_, ?_⟩
        · -- the head node comes before both sub-blocks
          intro b hb
          rcases List.mem_append.mp hb with hbA | hbB
          · obtain ⟨r2, hbp⟩ := hA b hbA
            show pyStrLt _ _ = true
            rw [C.path, hpath, hbp, dig]
            have : pre ++ [Char.ofNat (48 + k)] ++ ('.' :: r2) =
                pre ++ Char.ofNat (48 + k) :: '.' :: r2 := by simp
            rw [← this]
            exact pyStrLt_self_append _ _ (by simp)
          · obtain ⟨j, r, hj, hbp⟩ := hB b hbB
            show pyStrLt _ _ = true
            rw [C.path, hpath, hbp, dig]
            have : pre ++ [Char.ofNat (48 + k)] = pre ++ Char.ofNat (48 + k) :: [] := by simp
            rw [this]
            exact pyStrLt_append_cons_of_lt pre _ _ [] r
              (digit_lt k (by omega) (k + 1 + j) (by omega) (by omega))
        · -- the two sub-blocks are sorted and correctly interleaved
          rw [List.pairwise_append]
          refine ⟨A.1, B.1, ?_⟩
          intro a haA b hbB
          obtain ⟨r2, hap⟩ := hA a haA
          obtain ⟨j, r, hj, hbp⟩ := hB b hbB
          show pyStrLt _ _ = true
          rw [hap, hbp]
          exact pyStrLt_append_cons_of_lt pre _ _ _ r
            (digit_lt k (by omega) (k + 1 + j) (by omega) (by omega))
      · -- every emitted node extends `pre ++ repr (k + j)`
        rw [flattenParts_cons]
        intro d hd
        rcases List.mem_cons.mp hd with hdhead | hdtail
        · refine ⟨0, by simp [CList.length], [], ?_, Or.inl rfl⟩
          rw [hdhead, C.path, hpath]
          simp
        · rcases List.mem_append.mp hdtail with hdA | hdB
          · obtain ⟨r2, hdp⟩ := hA d hdA
            refine ⟨0, by simp [CList.length], '.' :: r2, ?_, Or.inr ⟨r2, rfl⟩⟩
            rw [hdp]
            simp [dig]
          · obtain ⟨j, hj, r, hdp, hr⟩ := B.2 d hdB
            refine ⟨j + 1, by simp [CList.length]; omega, r, ?_, hr⟩
            have : k + 1 + j = k + (j + 1) := by omega
            rw [hdp, this]

/-- The parser installs exactly the `pathsFrom` path discipline: if the level
maker writes `pre ++ repr n`, the parsed children satisfy
`pathsFrom pre (i + 1)`. -/
theorem parseCs_pathsFrom (l : EList) (mkLvl : Nat → String) (i : Nat) :
    ∀ (pre : List Char) (cs : CList),
      (∀ n, (mkLvl n).data = pre ++ (Nat.repr n).data) →
      parseCs l mkLvl i = .ok cs →
      pathsFrom pre (i + 1) cs = true := by
  induction l, mkLvl, i using parseCs.induct with
  | case1 mkLvl i =>
      intro pre cs _ h
      simp only [parseCs] at h
      cases h
      rfl
  | case2 a ch rest mkLvl i u tt htt hu lvl ihsub ihrest =>
      intro pre cs hmk h
      simp only [parseCs, hu, htt, if_pos rfl] at h
      cases hparts : parseCs ch (fun n => mkLvl (i + 1) ++ "." ++ Nat.repr n) 0 with
      | error e => rw [hparts] at h; exact absurd h (by simp [Bind.bind, Except.bind])
      | ok parts =>
          cases htail : parseCs rest mkLvl (i + 1) with
          | error e =>
              rw [hparts, htail] at h
              exact absurd h (by simp [Bind.bind, Except.bind])
          | ok tail =>
              rw [hparts, htail] at h
              simp only [Bind.bind, Except.bind, pure, Except.pure, if_true,
                Except.ok.injEq] at h
              subst h
              simp only [pathsFrom, Bool.and_eq_true, beq_iff_eq]
              refine ⟨⟨by simp [C.path, hmk (i + 1)], ?_⟩, ?_⟩
              · exact ihsub ((mkLvl (i + 1)).data ++ ['.']) parts
                  (fun n => by simp [String.data_append]) hparts
              · exact ihrest pre tail hmk htail
  | case3 a ch rest mkLvl i hmatch =>
      intro pre cs hmk h
      rcases hu : findTwo ch "did" "unitid" with _ | u
      · simp [parseCs, hu] at h
      · rcases htt : findTwo ch "did" "unittitle" with _ | tt2
        · simp [parseCs, hu, htt] at h
        · exact (hmatch u tt2 hu htt).elim
  | case4 tg a ch rest mkLvl i htg ih =>
      intro pre cs hmk h
      simp only [parseCs, if_neg htg] at h
      exact ih pre cs hmk h

/-! ### Supporting lemmas: pagination, envelope, concordance -/

theorem getScansLoop_spec (f : Nat → List ScanRecord) :
    ∀ (k s l : Nat),
      getScansLoop f k s l =
        (((List.range k).map (fun j => s + j * l)).flatMap f,
          (List.range k).map (fun j => s + j * l)) := by
  intro k
  induction k with
  | zero => intro s l; rfl
  | succ k ih =>
      intro s l
      have hmap : (List.range (k + 1)).map (fun j => s + j * l) =
          s :: (List.range k).map (fun j => (s + l) + j * l) := by
        rw [List.range_succ_eq_map]
        simp only [List.map_cons, Nat.zero_mul, Nat.add_zero, List.map_map]
        congr 1
        apply List.map_congr_left
        intro j _
        simp [Function.comp]
        ring
      rw [getScansLoop, ih (s + l) l, hmap]
      simp [List.flatMap_cons]

theorem beginsWith_append_single (c : Char) :
    ∀ (pat s : List Char), c ∉ pat →
      beginsWith pat (s ++ [c]) = true → beginsWith pat s = true := by
  intro pat
  induction pat with
  | nil => intro s _ _; rfl
  | cons a ps ih =>
      intro s hc h
      cases s with
      | nil =>
          exfalso
          simp only [List.nil_append, beginsWith, Bool.and_eq_true, decide_eq_true_eq] at h
          exact hc (by simp [h.1])
      | cons b s2 =>
          simp only [List.cons_append, beginsWith, Bool.and_eq_true] at h ⊢
          exact ⟨h.1, ih s2 (fun hm => hc (List.mem_cons_of_mem a hm)) h.2⟩

theorem occursIn_append_single (c : Char) :
    ∀ (pat s : List Char), c ∉ pat →
      occursIn pat s = false → occursIn pat (s ++ [c]) = false := by
  intro pat s
  induction s with
  | nil =>
      intro hc h
      simp only [occursIn] at h
      simp only [List.nil_append, occursIn, Bool.or_eq_false_iff]
      refine ⟨?_, h⟩
      cases hb : beginsWith pat [c] with
      | false => rfl
      | true =>
          exfalso
          have := beginsWith_append_single c pat [] hc (by simpa using hb)
          rw [this] at h
          cases h
  | cons d s2 ih =>
      intro hc h
      simp only [occursIn, Bool.or_eq_false_iff] at h
      simp only [List.cons_append, occursIn, Bool.or_eq_false_iff]
      refine ⟨?_, ih hc h.2⟩
      cases hb : beginsWith pat (d :: (s2 ++ [c])) with
      | false => rfl
      | true =>
          exfalso
          have := beginsWith_append_single c pat (d :: s2) hc (by simpa using hb)
          rw [this] at h
          cases h.1

theorem replaceParen : ∀ (body : List Char), ')' ∉ body →
    replaceAllGo [')'] [] (body ++ [')']) 0 = body := by
  intro body
  induction body with
  | nil => intro _; rfl
  | cons d rest ih =>
      intro h
      have hd : ')' ≠ d := fun he => h (List.mem_cons.mpr (Or.inl he))
      have hbw : beginsWith [')'] (d :: (rest ++ [')'])) = false := by
        simp [beginsWith, hd]
      simp [replaceAllGo, hbw, ih (fun hm => h (List.mem_cons_of_mem d hm))]

theorem alookup_append_of_none (k : String) :
    ∀ (l1 l2 : List (String × String)), alookup k l1 = none →
      alookup k (l1 ++ l2) = alookup k l2 := by
  intro l1 l2
  induction l1 with
  | nil => intro _; rfl
  | cons p rest ih =>
      intro h
      by_cases hk : k = p.1
      · simp [alookup, hk] at h
      · simp only [alookup, if_neg hk] at h
        simp only [List.cons_append, alookup, if_neg hk]
        exact ih h

theorem alookup_append_of_some (k : String) :
    ∀ (l1 l2 : List (String × String)) (y : String), alookup k l1 = some y →
      alookup k (l1 ++ l2) = some y := by
  intro l1 l2 y
  induction l1 with
  | nil => intro h; cases h
  | cons p rest ih =>
      intro h
      by_cases hk : k = p.1
      · simp only [alookup, if_pos hk] at h
        simp only [List.cons_append, alookup, if_pos hk]
        exact h
      · simp only [alookup, if_neg hk] at h
        simp only [List.cons_append, alookup, if_neg hk]
        exact ih h

theorem dictInsert_fresh (d : List (String × String)) (k v : String)
    (h : alookup k d = none) : dictInsert d k v = d ++ [(k, v)] := by
  simp [dictInsert, h]

theorem foldl_dictInsert_fresh :
    ∀ (scans : List ScanRecord) (conc : List (String × String)),
      (∀ s ∈ scans, alookup s.name conc = none) →
      (scans.map (fun s => s.name)).Nodup →
      scans.foldl (fun d s => dictInsert d s.name s.id) conc =
        conc ++ scans.map (fun s => (s.name, s.id)) := by
  intro scans
  induction scans with
  | nil => intro conc _ _; simp
  | cons s rest ih =>
      intro conc hfresh hnodup
      simp only [List.map_cons, List.nodup_cons, List.mem_map] at hnodup
      have h1 : alookup s.name conc = none := hfresh s (List.mem_cons_self s rest)
      simp only [List.foldl_cons, dictInsert_fresh conc s.name s.id h1]
      rw [ih (conc ++ [(s.name, s.id)]) ?_ hnodup.2]
      · simp
      · intro r hr
        have hne : r.name ≠ s.name := fun he => hnodup.1 ⟨r, hr, he⟩
        rw [alookup_append_of_none r.name conc [(s.name, s.id)]
          (hfresh r (List.mem_cons_of_mem s hr))]
        simp [alookup, hne]

theorem downloadLoop_conc (imgResp : String → Nat × String) (nscans : Nat) (folder : String) :
    ∀ (scans : List ScanRecord) (n : Nat) (fs : Fs) (conc : List (String × String)),
      (downloadLoop imgResp true nscans folder scans n fs conc).2.2.2 =
        scans.foldl (fun d s => dictInsert d s.name s.id) conc := by
  intro scans
  induction scans with
  | nil => intro n fs conc; rfl
  | cons s rest ih =>
      intro n fs conc
      simp only [downloadLoop, if_true, List.foldl_cons]
      exact ih (n + 1) _ _

theorem alookup_map_overwrite (k v : String) :
    ∀ (d : List (String × String)), (alookup k d).isSome = true →
      alookup k (d.map (fun p => if p.1 = k then (k, v) else p)) = some v := by
  intro d
  induction d with
  | nil => intro h; cases h
  | cons p rest ih =>
      intro h
      by_cases hp : p.1 = k
      · simp [List.map_cons, alookup, hp]
      · have hkp : ¬ k = p.1 := fun he => hp he.symm
        simp only [alookup, if_neg hkp] at h
        simp only [List.map_cons, if_neg hp, alookup, if_neg hkp]
        exact ih h

theorem alookup_map_ne (k v x : String) (hx : x ≠ k) :
    ∀ (d : List (String × String)),
      alookup x (d.map (fun p => if p.1 = k then (k, v) else p)) = alookup x d := by
  intro d
  induction d with
  | nil => rfl
  | cons p rest ih =>
      by_cases hp : p.1 = k
      · have hxp : ¬ x = p.1 := by rw [hp]; exact hx
        simp only [List.map_cons, if_pos hp, alookup, if_neg hx, if_neg hxp]
        exact ih
      · simp only [List.map_cons, if_neg hp, alookup]
        by_cases hxa : x = p.1
        · simp [if_pos hxa]
        · simp only [if_neg hxa]
          exact ih

theorem dictInsert_alookup_self (d : List (String × String)) (k v : String) :
    alookup k (dictInsert d k v) = some v := by
  unfold dictInsert
  cases h : (alookup k d).isSome with
  | true => simp only [h, if_true]; exact alookup_map_overwrite k v d h
  | false =>
      have hnone : alookup k d = none := by
        cases hl : alookup k d with
        | none => rfl
        | some x => rw [hl] at h; cases h
      simp only [h, Bool.false_eq_true, if_false]
      rw [alookup_append_of_none k d [(k, v)] hnone]
      simp [alookup]

theorem dictInsert_alookup_ne (d : List (String × String)) (k v x : String) (hx : x ≠ k) :
    alookup x (dictInsert d k v) = alookup x d := by
  unfold dictInsert
  cases h : (alookup k d).isSome with
  | true => simp only [h, if_true]; exact alookup_map_ne k v x hx d
  | false =>
      simp only [h, Bool.false_eq_true, if_false]
      cases hxd : alookup x d with
      | some y => exact alookup_append_of_some x d [(k, v)] y hxd
      | none =>
          rw [alookup_append_of_none x d [(k, v)] hxd]
          simp [alookup, hx]

theorem dictInsert_alookup_isSome (d : List (String × String)) (k v x : String)
    (h : (alookup x d).isSome = true) :
    (alookup x (dictInsert d k v)).isSome = true := by
  by_cases hx : x = k
  · subst hx; rw [dictInsert_alookup_self]; rfl
  · rw [dictInsert_alookup_ne d k v x hx]; exact h

theorem foldl_dictInsert_isSome :
    ∀ (scans : List ScanRecord) (conc : List (String × String)) (x : String),
      (alookup x conc).isSome = true →
      (alookup x (scans.foldl (fun d s => dictInsert d s.name s.id) conc)).isSome = true := by
  intro scans
  induction scans with
  | nil => intro conc x h; exact h
  | cons s rest ih =>
      intro conc x h
      simp only [List.foldl_cons]
      exact ih _ x (dictInsert_alookup_isSome conc s.name s.id x h)

theorem foldl_dictInsert_mem_isSome :
    ∀ (scans : List ScanRecord) (conc : List (String × String)) (s : ScanRecord),
      s ∈ scans →
      (alookup s.name (scans.foldl (fun d r => dictInsert d r.name r.id) conc)).isSome =
        true := by
  intro scans
  induction scans with
  | nil => intro conc s h; cases h
  | cons r rest ih =>
      intro conc s h
      simp only [List.foldl_cons]
      rcases List.mem_cons.mp h with he | hm
      · subst he
        exact foldl_dictInsert_isSome rest _ s.name
          (by rw [dictInsert_alookup_self]; rfl)
      · exact ih _ s hm

/-- Definitional unfolding of `parse_ead_element` on a constructed element. -/
theorem parse_ead_element_def (tg : String) (tx : Option String) (ch : EList)
    (level : String) :
    parse_ead_element (Element.mk tg tx ch) level =
      match findTwo ch "did" "unitid", findTwo ch "did" "unittitle" with
      | some u, some tt => do
          let parts ← parseCs ch (fun n => level ++ "." ++ Nat.repr n) 0
          return C.mk u.text tt.text level parts
      | _, _ => .error "AttributeError" := rfl

/-! ### Claim theorems -/

/-- Claim C2 (amended): for every declared scan count, `getScans` issues
exactly `ceil(nscans / 100)` sequential paginated requests — the iteration
count uses the hard-coded page size 100, not the `limit` parameter — with
`start` values `start, start + limit, start + 2·limit, ...`, and returns the
concatenation of the fetched pages; with the default `limit = 100` this is
`ceil(nscans / limit)` requests, and in particular `nscans = 250` with
`limit = 100` issues exactly 3 requests with `start` = 0, 100, 200. -/
theorem claim_C2 (fetchPage : Nat → List ScanRecord) (nscans start limit : Nat) :
    (getScans fetchPage nscans start limit).2 =
        (List.range ((nscans + 99) / 100)).map (fun j => start + j * limit) ∧
      (getScans fetchPage nscans start limit).1 =
        ((List.range ((nscans + 99) / 100)).map (fun j => start + j * limit)).flatMap
          fetchPage ∧
      (getScans fetchPage 250 0 100).2 = [0, 100, 200] := by
  refine ⟨?_, ?_, ?_⟩
  · rw [getScans, getScansLoop_spec]
  · rw [getScans, getScansLoop_spec]
  · rw [getScans, getScansLoop_spec]
    show (List.range ((250 + 99) / 100)).map (fun j => 0 + j * 100) = [0, 100, 200]
    decide

/-- Claim C2 is false as stated: with `nscans = 250` and `limit = 50` the code
issues 3 requests (`ceil(250/100)`), not `ceil(250/50) = 5`, so the declared
count is not covered for a non-default limit. -/
theorem claim_C2_counterexample :
    (getScans (fun _ => []) 250 0 50).2 = [0, 50, 100] ∧
      ((getScans (fun _ => []) 250 0 50).2).length ≠ (250 + 50 - 1) / 50 := by
  refine ⟨?_, ?_⟩ <;> decide

/-- Claim C4: `flatten_ead_tree` returns every node except the root exactly
once, in depth-first document order (each child, then its flattened
descendants, then the next sibling) — stated as: the independently defined
document-order listing of the whole tree is exactly the root consed onto the
flattener's output.  Moreover, when the root has children (so the root is not
itself a leaf), filtering the output for empty-children nodes yields exactly
the leaves of the whole tree. -/
theorem claim_C4 (c : C) :
    docOrder c = c :: flatten_ead_tree c ∧
      (c.hasPart.isEmpty = false →
        (flatten_ead_tree c).filter (fun d => d.hasPart.isEmpty) =
          (docOrder c).filter (fun d => d.hasPart.isEmpty)) := by
  constructor
  · rw [docOrder, flatten_ead_tree, flattenParts_eq_docOrderParts]
  · intro hne
    rw [docOrder, List.filter_cons, flatten_ead_tree, flattenParts_eq_docOrderParts]
    simp [hne]

theorem claim_C4_witness :
    cSmall.hasPart.isEmpty = false ∧
      docOrder cSmall = cSmall :: flatten_ead_tree cSmall ∧
      (flatten_ead_tree cSmall).filter (fun d => d.hasPart.isEmpty) =
        (docOrder cSmall).filter (fun d => d.hasPart.isEmpty) :=
  ⟨by decide, (claim_C4 cSmall).1, (claim_C4 cSmall).2 (by decide)⟩

/-- Claim C6: if the destination file `<folder>/<name>.jpg` already exists,
`downloadScan` is a no-op — the filesystem is returned unchanged (so the
existing contents are untouched) and no image request is issued. -/
theorem claim_C6 (imgResp : String → Nat × String) (uuidScan scanName folder : String)
    (fs : Fs) (h : (alookup (folder ++ "/" ++ scanName ++ ".jpg") fs).isSome = true) :
    downloadScan imgResp uuidScan scanName folder fs = (fs, []) := by
  simp [downloadScan, h]

theorem claim_C6_witness :
    ((alookup ("out" ++ "/" ++ "X" ++ ".jpg") [("out/X.jpg", "old")]).isSome = true) ∧
      downloadScan (fun _ => (200, "new")) "u1" "X" "out" [("out/X.jpg", "old")] =
        ([("out/X.jpg", "old")], []) :=
  ⟨by decide, claim_C6 (fun _ => (200, "new")) "u1" "X" "out" [("out/X.jpg", "old")]
    (by decide)⟩

/-- Claim C7: when the destination file is absent and the image fetch returns
a non-200 status, `downloadScan` writes no file and raises no error: the
request is issued, the filesystem is unchanged, and the function returns
normally (the model is total — the source has no raise path here). -/
theorem claim_C7 (imgResp : String → Nat × String) (uuidScan scanName folder : String)
    (fs : Fs) (h1 : alookup (folder ++ "/" ++ scanName ++ ".jpg") fs = none)
    (h2 : (imgResp (DOWNLOADURL ++ uuidScan ++ ".jpg")).1 ≠ 200) :
    downloadScan imgResp uuidScan scanName folder fs =
      (fs, [DOWNLOADURL ++ uuidScan ++ ".jpg"]) := by
  simp [downloadScan, h1, h2]

theorem claim_C7_witness :
    downloadScan (fun _ => (404, "")) "u1" "X" "out" [] =
      ([], [DOWNLOADURL ++ "u1" ++ ".jpg"]) :=
  claim_C7 (fun _ => (404, "")) "u1" "X" "out" [] rfl (by decide)

/-- Claim C8 (amended): whenever the retrieved scan list is empty,
`downloadFile` prints `"No scans found for <inventory>"`, leaves the
filesystem untouched, issues no image request, and returns normally — but the
two ways of arriving at an empty list (declared count 0, or declared nonzero
count with empty pages) are *not* signalled distinctly: both produce this
identical outcome. -/
theorem claim_C8 (env : DLEnv) (path cn inv folder : String) (cf : Bool) (fs : Fs)
    (h : (getScans env.fetchPage env.scancount 0 100).1 = []) :
    downloadFile env path cn inv folder cf fs =
      (fs, ["No scans found for " ++ inv], []) := by
  simp only [downloadFile, h, List.isEmpty_nil, if_true]

theorem claim_C8_witness :
    (getScans envZero.fetchPage envZero.scancount 0 100).1 = [] ∧
      downloadFile envZero "1.1" "5075" "92" "data" true [] =
        ([], ["No scans found for " ++ "92"], []) :=
  ⟨rfl, claim_C8 envZero "1.1" "5075" "92" "data" true [] rfl⟩

/-- Claim C8 is false in its distinct-signal part: a declared count of 5 with
a service returning no records produces *exactly* the same observable result
as a genuine declared count of 0 — the caller cannot tell them apart. -/
theorem claim_C8_counterexample :
    envFive.scancount ≠ 0 ∧
      downloadFile envFive "1.1" "5075" "92" "data" true [] =
        downloadFile envZero "1.1" "5075" "92" "data" true [] :=
  ⟨by decide, rfl⟩

/-- Claim C1 (amended): for every parsed finding-aid tree in which every node
(root included) has at most nine children, sorting the flattened non-root
nodes by the `path` string (Python's lexicographic string `<`, as in
`sorted(elements, key=lambda x: x.path)`) restores strict depth-first
document order.  (With ten or more children the lexicographic comparison puts
`"10"` before `"2"` and the property fails; see the counterexample.) -/
theorem claim_C1 (tree : Element) (c : C) (hparse : parse_ead tree = .ok c)
    (hsmall : smallAll c = true) :
    List.insertionSort pathLe (flatten_ead_tree c) = docOrderParts c.hasPart := by
  have hpaths : pathsFrom [] 1 c.hasPart = true := by
    unfold parse_ead at hparse
    cases hu : findDescL tree.children "eadid" with
    | none => rw [hu] at hparse; cases hparse
    | some u =>
        cases ht : findDescL tree.children "titleproper" with
        | none => rw [hu, ht] at hparse; cases hparse
        | some tt =>
            rw [hu, ht] at hparse
            cases hps : parseCs (findallArchdescDscC tree) (fun n => Nat.repr n) 0 with
            | error e =>
                rw [hps] at hparse
                exact absurd hparse (by simp [Bind.bind, Except.bind])
            | ok parts =>
                rw [hps] at hparse
                simp only [Bind.bind, Except.bind, pure, Except.pure,
                  Except.ok.injEq] at hparse
                have hcp : c.hasPart = parts := by rw [← hparse]; rfl
                rw [hcp]
                exact parseCs_pathsFrom (findallArchdescDscC tree) (fun n => Nat.repr n) 0
                  [] parts (fun n => by simp) hps
  simp only [smallAll, Bool.and_eq_true, decide_eq_true_eq] at hsmall
  obtain ⟨h9, hsp⟩ := hsmall
  have hpair := (pairwise_pathsFrom [] 1 c.hasPart (le_refl 1) (by omega) hpaths hsp).1
  have hsorted : List.Sorted pathLe (flatten_ead_tree c) := by
    rw [flatten_ead_tree]
    exact List.Pairwise.imp (fun hab => pLt_pathLe hab) hpair
  rw [List.Sorted.insertionSort_eq hsorted, flatten_ead_tree, flattenParts_eq_docOrderParts]

theorem claim_C1_witness :
    parse_ead elSmall = .ok cSmall ∧ smallAll cSmall = true ∧
      List.insertionSort pathLe (flatten_ead_tree cSmall) = docOrderParts cSmall.hasPart :=
  ⟨rfl, by decide, claim_C1 elSmall cSmall rfl (by decide)⟩

/-- Claim C1 is false as stated for trees where some node has ten or more
children: in the parsed ten-child finding aid `elBig`, sorting the flattened
nodes by the `path` string puts path `"10"` immediately after `"1"` and
before `"2"`, so the sort does not restore document order. -/
theorem claim_C1_counterexample :
    List.insertionSort pathLe (flatten_ead_tree cBig) ≠ docOrderParts cBig.hasPart := by
  intro h
  exact absurd (congrArg (List.map C.path) h) (by decide)

/-- Claim C3 (amended): the envelope handling removes every occurrence of the
literal `"callback_json8("` and every `")"` character from the response body
(Python `str.replace` replaces all occurrences); consequently the enclosed
JSON text is recovered exactly when it contains no `")"` character and no
occurrence of the callback literal — a JSON body containing a parenthesis is
silently corrupted instead (see the counterexample).  A decoding failure on
the stripped text is surfaced: `getScanCount` has no handler around the
parse, so the decoder's error is the call's result. -/
theorem claim_C3 :
    (∀ body : String,
        occursIn ("callback_json8(").data body.data = false →
        ')' ∉ body.data →
        stripEnvelope ("callback_json8(" ++ body ++ ")") = body) ∧
      ∀ (respText : String) (loads : String → Except String Nat) (e : String),
        loads (stripEnvelope respText) = .error e →
        getScanCount respText loads = .error e := by
  constructor
  · intro body h1 h2
    have hocc : occursIn ("callback_json8(").data (body.data ++ [')']) = false :=
      occursIn_append_single ')' _ body.data (by decide) h1
    apply String.ext
    have hdata : ("callback_json8(" ++ body ++ ")").data
        = ("callback_json8(").data ++ (body.data ++ [')']) := by
      simp [String.data_append]
    have hinner : (pyReplace ("callback_json8(" ++ body ++ ")") "callback_json8(" "").data
        = body.data ++ [')'] := by
      show replaceAllGo ("callback_json8(").data ("").data
          ("callback_json8(" ++ body ++ ")").data 0 = body.data ++ [')']
      rw [hdata]
      rw [replaceAllGo_match _ _ _ (by decide)]
      rw [replaceAllGo_of_not_occurs _ _ _ hocc]
      rfl
    show (pyReplace (pyReplace ("callback_json8(" ++ body ++ ")") "callback_json8(" "")
        ")" "").data = body.data
    show replaceAllGo (")").data ("").data
        (pyReplace ("callback_json8(" ++ body ++ ")") "callback_json8(" "").data 0
      = body.data
    rw [hinner]
    exact replaceParen body.data h2
  · intro respText loads e h
    rw [getScanCount, h]

theorem claim_C3_witness :
    occursIn ("callback_json8(").data ("\x7b\"a\": \"b\"\x7d").data = false ∧
      ')' ∉ ("\x7b\"a\": \"b\"\x7d").data ∧
      stripEnvelope ("callback_json8(" ++ "\x7b\"a\": \"b\"\x7d" ++ ")") =
        "\x7b\"a\": \"b\"\x7d" ∧
      getScanCount "not json8" (fun _ => .error "JSONDecodeError") =
        .error "JSONDecodeError" :=
  ⟨by decide, by decide,
   claim_C3.1 "\x7b\"a\": \"b\"\x7d" (by decide) (by decide),
   claim_C3.2 "not json8" (fun _ => .error "JSONDecodeError") "JSONDecodeError" rfl⟩

/-- Claim C3 is false as stated: a well-formed envelope whose JSON body
contains a `")"` character is not recovered exactly — the inner parenthesis
is deleted along with the trailing envelope parenthesis. -/
theorem claim_C3_counterexample :
    stripEnvelope ("callback_json8(" ++ "\x7b\"name\": \"a)b\"\x7d" ++ ")") =
        "\x7b\"name\": \"ab\"\x7d" ∧
      stripEnvelope ("callback_json8(" ++ "\x7b\"name\": \"a)b\"\x7d" ++ ")") ≠
        "\x7b\"name\": \"a)b\"\x7d" := by
  refine ⟨?_, ?_⟩ <;> decide

/-- Claim C5 (amended): a *missing* `did/unitid` or `did/unittitle`
sub-element (and a missing `.//eadid` or `.//titleproper` at document level)
makes the parser raise (`AttributeError` from `None.text`); but a *present*
sub-element with empty text does not raise — its `None` text is silently
propagated into the constructed node's `id`/`title`. -/
theorem claim_C5 :
    (∀ (el : Element) (level : String),
        (findTwo el.children "did" "unitid" = none ∨
          findTwo el.children "did" "unittitle" = none) →
        parse_ead_element el level = .error "AttributeError") ∧
      (∀ (el : Element) (level : String) (u tt : Element) (parts : CList),
        findTwo el.children "did" "unitid" = some u →
        findTwo el.children "did" "unittitle" = some tt →
        parseCs el.children (fun n => level ++ "." ++ Nat.repr n) 0 = .ok parts →
        parse_ead_element el level = .ok (C.mk u.text tt.text level parts)) ∧
      (∀ tree : Element,
        (findDescL tree.children "eadid" = none ∨
          findDescL tree.children "titleproper" = none) →
        parse_ead tree = .error "AttributeError") ∧
      ∀ (tree : Element) (u tt : Element) (parts : CList),
        findDescL tree.children "eadid" = some u →
        findDescL tree.children "titleproper" = some tt →
        parseCs (findallArchdescDscC tree) (fun n => Nat.repr n) 0 = .ok parts →
        parse_ead tree = .ok (C.mk u.text tt.text "0" parts) := by
  refine ⟨?_, ?_, ?_, ?_⟩
  · intro el level h
    cases el with
    | mk tg tx ch =>
        simp only [Element.children] at h
        rw [parse_ead_element_def]
        rcases h with h | h
        · rw [h]
          all_goals cases findTwo ch "did" "unittitle" <;> rfl
        · rw [h]
          all_goals cases findTwo ch "did" "unitid" <;> rfl
  · intro el level u tt parts hu htt hps
    cases el with
    | mk tg tx ch =>
        simp only [Element.children] at hu htt hps
        rw [parse_ead_element_def, hu, htt, hps]
        rfl
  · intro tree h
    unfold parse_ead
    rcases h with h | h
    · rw [h]
      all_goals cases findDescL tree.children "titleproper" <;> rfl
    · rw [h]
      all_goals cases findDescL tree.children "eadid" <;> rfl
  · intro tree u tt parts hu htt hps
    unfold parse_ead
    rw [hu, htt, hps]
    rfl

theorem claim_C5_witness :
    parse_ead_element elMissingUnitid "1" = .error "AttributeError" ∧
      parse_ead_element elEmptyUnitid "2" = .ok (C.mk none none "2" CList.nil) ∧
      parse_ead (Element.mk "ead" none .nil) = .error "AttributeError" :=
  ⟨claim_C5.1 elMissingUnitid "1" (Or.inl rfl),
   claim_C5.2.1 elEmptyUnitid "2" (Element.mk "unitid" none .nil)
     (Element.mk "unittitle" none .nil) CList.nil rfl rfl rfl,
   claim_C5.2.2.1 (Element.mk "ead" none .nil) (Or.inl rfl)⟩

/-- Claim C5 is false as stated: a descriptive unit whose `unitid` and
`unittitle` sub-elements are present but empty is parsed *successfully* into
a node with null `id` and null `title` — no error is raised. -/
theorem claim_C5_counterexample :
    parse_ead_element elEmptyUnitid "1" = .ok (C.mk none none "1" CList.nil) ∧
      ∀ e, parse_ead_element elEmptyUnitid "1" ≠ .error e := by
  refine ⟨rfl, ?_⟩
  intro e h
  rw [show parse_ead_element elEmptyUnitid "1" = .ok (C.mk none none "1" CList.nil)
    from rfl] at h
  cases h

/-- Claim C9: with the concordance option on and a non-empty scan list (names
unique within the inventory, as the data model guarantees), `downloadFile`
writes `<folder>/<collection>/<inventory>/concordance.json` containing the
pretty-printed JSON object that maps each retrieved scan's name to its id,
keys in scan retrieval order. -/
theorem claim_C9 (env : DLEnv) (path cn inv folder : String) (fs : Fs)
    (hne : (getScans env.fetchPage env.scancount 0 100).1 ≠ [])
    (hnodup : ((getScans env.fetchPage env.scancount 0 100).1.map (fun s => s.name)).Nodup) :
    alookup (folder ++ "/" ++ cn ++ "/" ++ inv ++ "/concordance.json")
        (downloadFile env path cn inv folder true fs).1 =
      some (dumpConcordance ((getScans env.fetchPage env.scancount 0 100).1.map
        (fun s => (s.name, s.id)))) := by
  have hie : (getScans env.fetchPage env.scancount 0 100).1.isEmpty = false := by
    cases h2 : (getScans env.fetchPage env.scancount 0 100).1 with
    | nil => exact absurd h2 hne
    | cons a as => rfl
  simp only [downloadFile, hie, Bool.false_eq_true, if_false, if_true]
  rw [downloadLoop_conc, foldl_dictInsert_fresh _ [] (fun s _ => rfl) hnodup]
  simp [fsWrite, alookup]

theorem claim_C9_witness :
    (getScans envAB.fetchPage envAB.scancount 0 100).1 ≠ [] ∧
      ((getScans envAB.fetchPage envAB.scancount 0 100).1.map (fun s => s.name)).Nodup ∧
      alookup "data/5075/92/concordance.json"
          (downloadFile envAB "1.1" "5075" "92" "data" true []).1 =
        some "\x7b\n    \"A\": \"1\",\n    \"B\": \"2\"\n\x7d" :=
  ⟨by decide, by decide,
   claim_C9 envAB "1.1" "5075" "92" "data" [] (by decide) (by decide)⟩

/-- Claim C10: with the concordance option on, a concordance entry is
recorded for every retrieved scan unconditionally — whatever the image fetch
returned and whether or not the destination file already existed; in
particular (second and third conjuncts) an inventory whose single scan gets a
404 still writes a `concordance.json` naming that scan while no `.jpg` was
written. -/
theorem claim_C10 :
    (∀ (imgResp : String → Nat × String) (nscans : Nat) (folder : String)
        (scans : List ScanRecord) (n : Nat) (fs : Fs) (conc : List (String × String))
        (s : ScanRecord), s ∈ scans →
        (alookup s.name
          (downloadLoop imgResp true nscans folder scans n fs conc).2.2.2).isSome = true) ∧
      alookup "data/5075/92/concordance.json"
          (downloadFile env404 "1.1" "5075" "92" "data" true []).1 =
        some (dumpConcordance [("A", "1")]) ∧
      alookup "data/5075/92/A.jpg"
          (downloadFile env404 "1.1" "5075" "92" "data" true []).1 = none := by
  refine ⟨?_, ?_, ?_⟩
  · intro imgResp nscans folder scans n fs conc s hs
    rw [downloadLoop_conc]
    exact foldl_dictInsert_mem_isSome scans conc s hs
  · decide
  · decide

theorem claim_C10_witness :
    (alookup "A"
      (downloadLoop (fun _ => (200, "b")) true 1 "f" [⟨"1", "A"⟩] 1 [] []).2.2.2).isSome
      = true :=
  claim_C10.1 (fun _ => (200, "b")) 1 "f" [⟨"1", "A"⟩] 1 [] [] ⟨"1", "A"⟩ (by decide)
